import Mathlib

/-!
# Sidecar metadata streams of the custom block cipher

A shallow embedding of `custom_cipher.cc` in its two variants
(`bijou-librocksdb-sys`, namespace `Bijou`, and `librocksdb-sys`, namespace
`Librocksdb`), followed by the properties of the specification that it settles.

Modelling conventions.

* A byte is a `Fin 256`; a file content or a data buffer is a `List Byte`; the
  metadata buffer of a callback is a `Buf MetadataSize`, a list of exactly
  `MetadataSize` bytes.
* `size_t` and `uint64_t` are 64 bit wide: the offset `blockIndex * MetadataSize`
  is computed modulo `2 ^ 64` and reaches `fseeko` / `seekg` as a signed 64 bit
  value (two's complement). A seek to a negative offset fails.
* The file system is a map from path names to contents, with a size `limit`
  above which the device stores no byte (disk full, `RLIMIT_FSIZE`, largest
  file size): a write that crosses the limit is short. Reads do not fail.
  `fopen` with mode `r+` succeeds exactly when the file exists, with mode `w+`
  always.
* A stream is identified with the path it was opened on and is unbuffered:
  what `fwrite` stores is in the file at once, and a seek has nothing to flush.
  A buffered stream of the C library behaves like this as long as every record
  sought or written ends below `limit`: then each seek succeeds and each
  pending record is flushed whole by the next seek or by `fclose`. Beyond the
  limit a buffered `fwrite` reports success and the failure shows in a later
  call, and a seek past the largest file size fails; the properties below that
  speak of the content of records are stated for records that end below
  `limit`.
* Callbacks are pure functions of `userdata`, the block index and the two
  buffers; a function pointer that is null is `none`.
-/

/-- One byte of a buffer or of a file. -/
abbrev Byte := Fin 256

/-- A buffer of exactly `n` bytes, such as the `metadata[MetadataSize]` argument of a
callback. -/
abbrev Buf (n : Nat) := { l : List Byte // l.length = n }

/-- The buffer of `n` zero bytes. -/
def zeros (n : Nat) : Buf n := ⟨List.replicate n 0, List.length_replicate n 0⟩

/-- The values of `rocksdb::Status` that the cipher stream returns. -/
inductive Status where
  | OK
  | Corruption
  deriving DecidableEq, Repr

/-- The values of `rocksdb::IOStatus` that a rename returns. -/
inductive IOStatus where
  | OK
  | IOError
  deriving DecidableEq, Repr

/-- State of the file system: the content of every existing file, and the
largest size the device lets a file grow to. -/
structure FileSystem where
  files : String → Option (List Byte)
  limit : Nat

/-- The file system in which `path` has content `c` (`none`: no such file). -/
def FileSystem.store (fs : FileSystem) (path : String) (c : Option (List Byte)) : FileSystem :=
  ⟨fun p => if p = path then c else fs.files p, fs.limit⟩

/-- Content of the file `path`; a file that does not exist has no byte. -/
def FileSystem.content (fs : FileSystem) (path : String) : List Byte :=
  (fs.files path).getD []

/-- Product of two 64 bit unsigned integers. -/
def mulU64 (a b : Nat) : Nat := (a * b) % 2 ^ 64

/-- Conversion of a 64 bit unsigned integer to `off_t` (signed, two's complement). -/
def toOffT (x : Nat) : Int :=
  if x % 2 ^ 64 < 2 ^ 63 then ((x % 2 ^ 64 : Nat) : Int) else ((x % 2 ^ 64 : Nat) : Int) - 2 ^ 64

/-- The bytes of `l` from offset `off` on, at most `n` of them. -/
def bytesAt (l : List Byte) (off n : Nat) : List Byte := (l.drop off).take n

/-- The `m` bytes of content `l` at offset `off`, a short read padded with zeros. -/
def record (l : List Byte) (off m : Nat) : List Byte :=
  bytesAt l off m ++ List.replicate (m - (bytesAt l off m).length) 0

/-- Content of a file after `b` is written at offset `off`: a gap between the
old end of file and `off` reads as zero bytes. -/
def pwrite (l : List Byte) (off : Nat) (b : List Byte) : List Byte :=
  l.take off ++ List.replicate (off - l.length) 0 ++ b ++ l.drop (off + b.length)

/-- Call `memset(buf + off, 0, n)` on a buffer that ends at `off + n`. -/
def memset (buf : List Byte) (off n : Nat) : List Byte :=
  buf.take off ++ List.replicate n 0

/-- Buffer `buf` after a read stored the bytes `got` at its start. -/
def storeAt0 (buf got : List Byte) : List Byte := got ++ buf.drop got.length

/-! ## The C library -/

/-- An open `FILE`: the path it was opened on and its position indicator. -/
structure FILE where
  path : String
  pos : Nat
  deriving DecidableEq, Repr

/-- Call `fopen(path, "r+")`: opens an existing file, never creates or truncates. -/
def fopen_rplus (fs : FileSystem) (path : String) : Option FILE :=
  if (fs.files path).isSome then some ⟨path, 0⟩ else none

/-- Call `fopen(path, "w+")`: creates the file, or truncates it to length zero. -/
def fopen_wplus (fs : FileSystem) (path : String) : FILE × FileSystem :=
  (⟨path, 0⟩, fs.store path (some []))

/-- Call `fseeko(f, offset, SEEK_SET)`: returns `0` and moves the position, or
returns `-1` and leaves it where it was when `offset` is negative. The file
system is not consulted: the model is that of the library for offsets up to the
size limit of the device. -/
def fseeko (f : FILE) (offset : Int) : Int × FILE :=
  if 0 ≤ offset then (0, ⟨f.path, offset.toNat⟩) else (-1, f)

/-- Call `fread(buf, 1, n, f)`: the bytes obtained (their number is the return
value) and the stream advanced past them. -/
def fread (n : Nat) (f : FILE) (fs : FileSystem) : List Byte × FILE :=
  let got := bytesAt (fs.content f.path) f.pos n
  (got, ⟨f.path, f.pos + got.length⟩)

/-- Call `fwrite(buf, size, 1, f)` on an unbuffered stream: stores the bytes of
the item that lie below the size limit of the device; returns the number of
complete items written. For an item that ends below the limit this is also
what a buffered stream has done once the next seek or `fclose` returns. -/
def fwrite (buf : List Byte) (size : Nat) (f : FILE) (fs : FileSystem) : Nat × FILE × FileSystem :=
  let stored := (buf.take size).take (fs.limit - f.pos)
  if stored.isEmpty then (0, f, fs)
  else
    (if stored.length = size then 1 else 0,
     ⟨f.path, f.pos + stored.length⟩,
     fs.store f.path (some (pwrite (fs.content f.path) f.pos stored)))

/-- Call `fclose(f)`: nothing is pending in an unbuffered stream. -/
def fclose (_f : FILE) (fs : FileSystem) : FileSystem := fs

/-- Call `rename(src, dest)` of the C library: `dest` is replaced by `src`; `-1`
and no change when `src` does not exist; no change when both name the same file. -/
def rename (fs : FileSystem) (src dest : String) : Int × FileSystem :=
  match fs.files src with
  | none => (-1, fs)
  | some c => if src = dest then (0, fs) else (0, (fs.store dest (some c)).store src none)

/-- Modelled from the spec: the wrapped file system (`FileSystem::Default()` of the
host engine, not part of the sources) performs the primary rename with the
`rename` of the operating system and reports its failure as an I/O error. -/
def defaultRenameFile (fs : FileSystem) (src dest : String) : IOStatus × FileSystem :=
  let r := rename fs src dest
  (if r.1 = 0 then IOStatus.OK else IOStatus.IOError, r.2)

namespace Bijou

/-- The `CustomCipher` struct; `D` is the type of destroy procedures. -/
structure CustomCipher (U D : Type) where
  userdata : U
  MetadataSize : Nat
  BlockSize : Nat
  /-- Result: success flag, data buffer and metadata buffer after the call. -/
  EncryptBlock : U → Nat → List Byte → Buf MetadataSize → Bool × List Byte × Buf MetadataSize
  /-- Result: success flag and data buffer after the call (metadata is `const`). -/
  DecryptBlock : U → Nat → List Byte → Buf MetadataSize → Bool × List Byte
  Destroy : Option D

/-- The class `CustomCipherStream`. -/
structure CustomCipherStream (U D : Type) where
  _file : FILE
  _cipher : CustomCipher U D

/-- What a block operation leaves behind: returned status, data buffer, the
`MetadataSize` bytes of the scratch buffer, the stream and the file system. -/
structure BlockResult (U D : Type) where
  status : Status
  data : List Byte
  scratch : List Byte
  stream : CustomCipherStream U D
  fs : FileSystem

variable {U D : Type}

/-- Constructor `CustomCipherStream(fname, cipher)`. -/
def CustomCipherStream.new (fs : FileSystem) (fname : String) (cipher : CustomCipher U D) :
    CustomCipherStream U D × FileSystem :=
  let metaName := fname ++ ".meta"
  match fopen_rplus fs metaName with
  | some f => (⟨f, cipher⟩, fs)
  | none =>
    let r := fopen_wplus fs metaName
    (⟨r.1, cipher⟩, r.2)

/-- Method `BlockSize()`. -/
def CustomCipherStream.BlockSize (s : CustomCipherStream U D) : Nat := s._cipher.BlockSize

/-- Destructor of the stream: closes the file. -/
def CustomCipherStream.close (s : CustomCipherStream U D) (fs : FileSystem) : FileSystem :=
  fclose s._file fs

/-- The byte offset both block operations pass to `fseeko`. -/
def CustomCipherStream.offset (s : CustomCipherStream U D) (blockIndex : Nat) : Int :=
  toOffT (mulU64 blockIndex s._cipher.MetadataSize)

/-- The first three statements of `EncryptBlock` and of `DecryptBlock`: seek,
read, zero-fill. Returns the scratch buffer handed to the callback and the
stream after the read. -/
def CustomCipherStream.fetch (s : CustomCipherStream U D) (fs : FileSystem)
    (blockIndex : Nat) (scratch : List Byte) : Buf s._cipher.MetadataSize × FILE :=
  let f1 := (fseeko s._file (s.offset blockIndex)).2
  let r := fread s._cipher.MetadataSize f1 fs
  let read := r.1.length
  (⟨memset (storeAt0 scratch r.1) read (s._cipher.MetadataSize - read), by
      simp only [memset, storeAt0, fread, bytesAt, List.length_append, List.length_take,
        List.length_drop, List.length_replicate, r, read]
      omega⟩, r.2)

/-- Method `EncryptBlock(blockIndex, data, scratch)`. -/
def CustomCipherStream.EncryptBlock (s : CustomCipherStream U D) (fs : FileSystem)
    (blockIndex : Nat) (data scratch : List Byte) : BlockResult U D :=
  let p := s.fetch fs blockIndex scratch
  let r := s._cipher.EncryptBlock s._cipher.userdata blockIndex data p.1
  if !r.1 then
    ⟨Status.Corruption, r.2.1, r.2.2.val, ⟨p.2, s._cipher⟩, fs⟩
  else
    let f3 := (fseeko p.2 (s.offset blockIndex)).2
    let w := fwrite r.2.2.val s._cipher.MetadataSize f3 fs
    ⟨Status.OK, r.2.1, r.2.2.val, ⟨w.2.1, s._cipher⟩, w.2.2⟩

/-- Method `DecryptBlock(blockIndex, data, scratch)`. -/
def CustomCipherStream.DecryptBlock (s : CustomCipherStream U D) (fs : FileSystem)
    (blockIndex : Nat) (data scratch : List Byte) : BlockResult U D :=
  let p := s.fetch fs blockIndex scratch
  let r := s._cipher.DecryptBlock s._cipher.userdata blockIndex data p.1
  if !r.1 then
    ⟨Status.Corruption, r.2, p.1.val, ⟨p.2, s._cipher⟩, fs⟩
  else
    ⟨Status.OK, r.2, p.1.val, ⟨p.2, s._cipher⟩, fs⟩

/-- The class `CustomEncryptionProvider`. -/
structure CustomEncryptionProvider (U D : Type) where
  _cipher : CustomCipher U D

/-- Destructor of the provider, `_cipher.Destroy(_cipher.userdata)`: the list of
destroy calls it makes, or `none` when the call goes through a null pointer. -/
def CustomEncryptionProvider.dtor (p : CustomEncryptionProvider U D) : Option (List (D × U)) :=
  match p._cipher.Destroy with
  | none => none
  | some d => some [(d, p._cipher.userdata)]

/-- Method `CreateCipherStream(fname, options, prefix, result)`. -/
def CustomEncryptionProvider.CreateCipherStream (p : CustomEncryptionProvider U D)
    (fs : FileSystem) (fname : String) : Status × CustomCipherStream U D × FileSystem :=
  let r := CustomCipherStream.new fs fname p._cipher
  (Status.OK, r.1, r.2)

/-- The class `CustomFileSystem`: a wrapper around the file system `target`, of
which only `RenameFile` is used here. -/
structure CustomFileSystem where
  target : FileSystem → String → String → IOStatus × FileSystem

/-- Method `RenameFile(src, dest, options, dbg)`. -/
def CustomFileSystem.RenameFile (w : CustomFileSystem) (fs : FileSystem) (src dest : String) :
    IOStatus × FileSystem :=
  let fs1 := (rename fs (src ++ ".meta") (dest ++ ".meta")).2
  w.target fs1 src dest

/-- The struct `rocksdb_env_t`; `rep` is shown as the two parts it is built from. -/
structure rocksdb_env_t (U D : Type) where
  my_fs : CustomFileSystem
  provider : CustomEncryptionProvider U D
  is_default : Bool

/-- The function `rocksdb_create_encrypted_env`. The aggregate initialiser of
`cipher` lists five of the six members: the last one, `Destroy`, is null. -/
def rocksdb_create_encrypted_env (userdata : U) (metadataSize blockSize : Nat)
    (encryptBlock : U → Nat → List Byte → Buf metadataSize → Bool × List Byte × Buf metadataSize)
    (decryptBlock : U → Nat → List Byte → Buf metadataSize → Bool × List Byte)
    (_Destroy : D) : rocksdb_env_t U D :=
  let cipher : CustomCipher U D :=
    ⟨userdata, metadataSize, blockSize, encryptBlock, decryptBlock, none⟩
  let provider : CustomEncryptionProvider U D := ⟨cipher⟩
  let my_fs : CustomFileSystem := ⟨defaultRenameFile⟩
  ⟨my_fs, provider, true⟩

end Bijou

namespace Librocksdb

/-- The `CustomCipher` struct of this variant: no userdata, no destroy. -/
structure CustomCipher where
  MetadataSize : Nat
  BlockSize : Nat
  /-- Result: success flag, data buffer and metadata buffer after the call. -/
  EncryptBlock : Nat → List Byte → Buf MetadataSize → Bool × List Byte × Buf MetadataSize
  /-- Result: success flag, data buffer and metadata buffer after the call. -/
  DecryptBlock : Nat → List Byte → Buf MetadataSize → Bool × List Byte × Buf MetadataSize

/-- A `std::fstream`: the path it was opened on, whether `failbit` or `badbit` is
set, and the position of its file buffer. No member function of a stream whose
`fail` flag is set touches the file, and nothing here clears the flag. -/
structure fstream where
  path : String
  fail : Bool
  pos : Nat
  deriving DecidableEq, Repr

/-- Constructor `std::fstream(path, in | out | binary)`: opens an existing file;
when there is none the open fails, no file is created and `failbit` is set. -/
def fstream.open (fs : FileSystem) (path : String) : fstream :=
  if (fs.files path).isSome then ⟨path, false, 0⟩ else ⟨path, true, 0⟩

/-- Member `seekg(pos)`: does nothing on a failed stream; sets `failbit` when the
position is negative. -/
def fstream.seekg (f : fstream) (pos : Int) : fstream :=
  if f.fail then f
  else if 0 ≤ pos then ⟨f.path, false, pos.toNat⟩
  else ⟨f.path, true, f.pos⟩

/-- Member `write(buf, n)`: does nothing on a failed stream; sets `badbit` when not
all `n` bytes are stored. -/
def fstream.write (f : fstream) (buf : List Byte) (n : Nat) (fs : FileSystem) :
    fstream × FileSystem :=
  if f.fail then (f, fs)
  else
    let stored := (buf.take n).take (fs.limit - f.pos)
    let fs1 := if stored.isEmpty then fs
      else fs.store f.path (some (pwrite (fs.content f.path) f.pos stored))
    (⟨f.path, decide (stored.length ≠ n), f.pos + stored.length⟩, fs1)

/-- Member `read(buf, n)`: does nothing on a failed stream; stores the bytes
obtained at the start of `buf` and sets `failbit` when they are fewer than `n`.
Returns the buffer and the stream. -/
def fstream.read (f : fstream) (buf : List Byte) (n : Nat) (fs : FileSystem) :
    List Byte × fstream :=
  if f.fail then (buf, f)
  else
    let got := bytesAt (fs.content f.path) f.pos n
    (storeAt0 buf got, ⟨f.path, decide (got.length ≠ n), f.pos + got.length⟩)

/-- The class `CustomCipherStream`. -/
structure CustomCipherStream where
  _file : fstream
  _cipher : CustomCipher

/-- What a block operation leaves behind: returned status, data buffer, the
`MetadataSize` bytes of the scratch buffer, the stream and the file system. -/
structure BlockResult where
  status : Status
  data : List Byte
  scratch : List Byte
  stream : CustomCipherStream
  fs : FileSystem

/-- Constructor `CustomCipherStream(fname, cipher)`. -/
def CustomCipherStream.new (fs : FileSystem) (fname : String) (cipher : CustomCipher) :
    CustomCipherStream :=
  ⟨fstream.open fs (fname ++ ".aead"), cipher⟩

/-- The position both block operations pass to `seekg`. -/
def CustomCipherStream.offset (s : CustomCipherStream) (blockIndex : Nat) : Int :=
  toOffT (mulU64 blockIndex s._cipher.MetadataSize)

/-- Method `EncryptBlock(blockIndex, data, scratch)`. -/
def CustomCipherStream.EncryptBlock (s : CustomCipherStream) (fs : FileSystem)
    (blockIndex : Nat) (data : List Byte) (scratch : Buf s._cipher.MetadataSize) : BlockResult :=
  let r := s._cipher.EncryptBlock blockIndex data scratch
  if !r.1 then
    ⟨Status.Corruption, r.2.1, r.2.2.val, s, fs⟩
  else
    let f1 := s._file.seekg (s.offset blockIndex)
    let w := f1.write r.2.2.val s._cipher.MetadataSize fs
    ⟨Status.OK, r.2.1, r.2.2.val, ⟨w.1, s._cipher⟩, w.2⟩

/-- The first two statements of `DecryptBlock`: seek and read. Returns the scratch
buffer handed to the callback and the stream after the read. -/
def CustomCipherStream.fetch (s : CustomCipherStream) (fs : FileSystem)
    (blockIndex : Nat) (scratch : Buf s._cipher.MetadataSize) :
    Buf s._cipher.MetadataSize × fstream :=
  let f1 := s._file.seekg (s.offset blockIndex)
  let r := f1.read scratch.val s._cipher.MetadataSize fs
  (⟨r.1, by
      simp only [fstream.read, r]
      split
      · exact scratch.property
      · simp only [storeAt0, bytesAt, List.length_append, List.length_take, List.length_drop,
          scratch.property]
        omega⟩, r.2)

/-- Method `DecryptBlock(blockIndex, data, scratch)`. -/
def CustomCipherStream.DecryptBlock (s : CustomCipherStream) (fs : FileSystem)
    (blockIndex : Nat) (data : List Byte) (scratch : Buf s._cipher.MetadataSize) : BlockResult :=
  let p := s.fetch fs blockIndex scratch
  let r := s._cipher.DecryptBlock blockIndex data p.1
  if !r.1 then
    ⟨Status.Corruption, r.2.1, r.2.2.val, ⟨p.2, s._cipher⟩, fs⟩
  else
    ⟨Status.OK, r.2.1, r.2.2.val, ⟨p.2, s._cipher⟩, fs⟩

/-- The class `CustomEncryptionProvider`. -/
structure CustomEncryptionProvider where
  _cipher : CustomCipher

/-- Method `CreateCipherStream(fname, options, prefix, result)`. -/
def CustomEncryptionProvider.CreateCipherStream (p : CustomEncryptionProvider)
    (fs : FileSystem) (fname : String) : Status × CustomCipherStream :=
  (Status.OK, CustomCipherStream.new fs fname p._cipher)

/-- The function `rocksdb_create_encrypted_env`, up to the provider it builds. -/
def rocksdb_create_encrypted_env (metadata_size block_size : Nat)
    (encrypt_block : Nat → List Byte → Buf metadata_size → Bool × List Byte × Buf metadata_size)
    (decrypt_block : Nat → List Byte → Buf metadata_size → Bool × List Byte × Buf metadata_size) :
    CustomEncryptionProvider :=
  ⟨⟨metadata_size, block_size, encrypt_block, decrypt_block⟩⟩

end Librocksdb

/-! ## Sample objects for concrete evaluation -/

/-- The file system holding the listed files, with room for `limit` bytes per file. -/
def mkFS (entries : List (String × List Byte)) (limit : Nat) : FileSystem :=
  ⟨fun p => entries.lookup p, limit⟩

/-- A sample encrypt callback: adds one to every data byte and records the byte
`7` in every metadata position. -/
def sampleEncrypt {m : Nat} (_i : Nat) (data : List Byte) (md : Buf m) :
    Bool × List Byte × Buf m :=
  (true, data.map (· + 1), ⟨md.val.map (fun _ => 7), by rw [List.length_map]; exact md.property⟩)

/-- A sample decrypt callback: subtracts one from every data byte; accepts only
metadata made of bytes `7`. -/
def sampleDecrypt {m : Nat} (_i : Nat) (data : List Byte) (md : Buf m) : Bool × List Byte :=
  (md.val.all (· == 7), data.map (· - 1))

/-- A sample cipher of the bijou variant with `m` bytes of metadata per block. -/
def sampleCipher (m : Nat) : Bijou.CustomCipher Unit Unit :=
  ⟨(), m, 4, fun _ => sampleEncrypt, fun _ => sampleDecrypt, none⟩

/-- A sample cipher of the bijou variant whose callbacks both report failure. -/
def failingCipher (m : Nat) : Bijou.CustomCipher Unit Unit :=
  ⟨(), m, 4, fun _ _ data md => (false, data, md), fun _ _ data _ => (false, data), none⟩

/-- A stream of the bijou variant at the start of the sidecar `a.meta`. -/
def sampleStream (m : Nat) : Bijou.CustomCipherStream Unit Unit :=
  ⟨⟨"a.meta", 0⟩, sampleCipher m⟩

/-- A sample cipher of the librocksdb-sys variant with `m` bytes of metadata. -/
def sampleCipherL (m : Nat) : Librocksdb.CustomCipher :=
  ⟨m, 4, sampleEncrypt, fun i data md => ((sampleDecrypt i data md).1, (sampleDecrypt i data md).2, md)⟩

/-- A sample cipher of the librocksdb-sys variant whose callbacks report failure. -/
def failingCipherL (m : Nat) : Librocksdb.CustomCipher :=
  ⟨m, 4, fun _ data md => (false, data, md), fun _ data md => (false, data, md)⟩

/-- Sample run: `EncryptBlock` of block 3 on an empty sidecar, two bytes of metadata
per block. -/
def seekableRun : Bijou.BlockResult Unit Unit :=
  (sampleStream 2).EncryptBlock (mkFS [("a.meta", [])] 100) 3 [1, 2, 3, 4] [0, 0]

/-- Sample run: `EncryptBlock` of block `2^63` on an empty sidecar, one byte of metadata
per block; the offset `2^63` is negative as an `off_t`. -/
def unseekableRun : Bijou.BlockResult Unit Unit :=
  (sampleStream 1).EncryptBlock (mkFS [("a.meta", [])] 100) (2 ^ 63) [1, 2, 3, 4] [0]

/-- Sample run: `EncryptBlock` of block 0 on an empty sidecar of a device that has no
room for a byte. -/
def fullDeviceRun : Bijou.BlockResult Unit Unit :=
  (sampleStream 1).EncryptBlock (mkFS [("a.meta", [])] 0) 0 [1, 2, 3, 4] [0]

/-- Sample scenario, first step: a stream is opened on file `a` and block `i` is
encrypted, with `m` bytes of metadata per block. -/
def persistEncrypt (fs : FileSystem) (m i : Nat) : Bijou.BlockResult Unit Unit :=
  (Bijou.CustomCipherStream.new fs "a" (sampleCipher m)).1.EncryptBlock
    (Bijou.CustomCipherStream.new fs "a" (sampleCipher m)).2 i [1, 2, 3, 4] (List.replicate m 0)

/-- Sample scenario, reopening: after `persistEncrypt` the stream is closed, a new
stream is opened on `a` and block `i` is decrypted. -/
def persistDecrypt (fs : FileSystem) (m i : Nat) : Bijou.BlockResult Unit Unit :=
  (Bijou.CustomCipherStream.new
      ((persistEncrypt fs m i).stream.close (persistEncrypt fs m i).fs) "a" (sampleCipher m)).1.DecryptBlock
    (Bijou.CustomCipherStream.new
      ((persistEncrypt fs m i).stream.close (persistEncrypt fs m i).fs) "a" (sampleCipher m)).2
    i (persistEncrypt fs m i).data (List.replicate m 0)

/-- Sample scenario, renaming: after `persistEncrypt` the stream is closed and file `a`
is renamed to `b`. -/
def renameStep (fs : FileSystem) (m i : Nat) : IOStatus × FileSystem :=
  (⟨defaultRenameFile⟩ : Bijou.CustomFileSystem).RenameFile
    ((persistEncrypt fs m i).stream.close (persistEncrypt fs m i).fs) "a" "b"

/-- Sample scenario, after renaming: a new stream is opened on `b` and block `i` is
decrypted. -/
def renameDecrypt (fs : FileSystem) (m i : Nat) : Bijou.BlockResult Unit Unit :=
  (Bijou.CustomCipherStream.new (renameStep fs m i).2 "b" (sampleCipher m)).1.DecryptBlock
    (Bijou.CustomCipherStream.new (renameStep fs m i).2 "b" (sampleCipher m)).2
    i (persistEncrypt fs m i).data (List.replicate m 0)

/-! ## Lists of bytes: reading and writing at an offset -/

theorem bytesAt_length (l : List Byte) (off n : Nat) :
    (bytesAt l off n).length = min n (l.length - off) := by
  simp [bytesAt]

theorem bytesAt_length_le (l : List Byte) (off n : Nat) : (bytesAt l off n).length ≤ n := by
  rw [bytesAt_length]; omega

theorem record_length (l : List Byte) (off m : Nat) : (record l off m).length = m := by
  simp [record, bytesAt_length]

theorem record_getElem? (l : List Byte) (off m k : Nat) :
    (record l off m)[k]? = if k < m then some (l[off + k]?.getD 0) else none := by
  unfold record
  rw [List.getElem?_append, bytesAt_length]
  simp only [bytesAt, List.getElem?_take, List.getElem?_drop, List.getElem?_replicate]
  by_cases h1 : k < m
  · by_cases h2 : k < l.length - off
    · have : off + k < l.length := by omega
      simp [h1, h2, this]
    · have h3 : l.length ≤ off + k := by omega
      simp [h1, h2, List.getElem?_eq_none h3]
      omega
  · simp [h1]
    omega

theorem record_nil (off m : Nat) : record [] off m = List.replicate m 0 := by
  apply List.ext_getElem?
  intro k
  rw [record_getElem?, List.getElem?_replicate]
  simp

theorem pwrite_getD (l : List Byte) (off : Nat) (b : List Byte) (k : Nat) :
    (pwrite l off b)[k]?.getD 0 =
      if off ≤ k ∧ k < off + b.length then b[k - off]?.getD 0 else l[k]?.getD 0 := by
  unfold pwrite
  have hlen : (List.take off l ++ List.replicate (off - l.length) (0 : Byte)).length = off := by
    simp; omega
  rw [List.append_assoc (List.take off l ++ List.replicate (off - l.length) 0)]
  rw [List.getElem?_append, hlen]
  by_cases h1 : k < off
  · have : ¬ (off ≤ k ∧ k < off + b.length) := by omega
    simp only [h1, this, if_true, if_false]
    rw [List.getElem?_append]
    simp only [List.length_take, List.getElem?_take, List.getElem?_replicate]
    by_cases h2 : k < l.length
    · simp [h1, h2]
    · have h3 : ¬ k < min off l.length := by omega
      have h4 : k - min off l.length < off - l.length := by omega
      simp [h2, h3, h4, List.getElem?_eq_none (Nat.le_of_not_lt h2)]
  · simp only [h1, if_false]
    rw [List.getElem?_append]
    by_cases h2 : k - off < b.length
    · have : off ≤ k ∧ k < off + b.length := by omega
      simp [h2, this]
    · have : ¬ (off ≤ k ∧ k < off + b.length) := by omega
      simp only [h2, this, if_false, List.getElem?_drop]
      congr 2
      omega

/-- Reading back the record just written gives the bytes written. -/
theorem record_pwrite_same (l : List Byte) (off : Nat) (b : List Byte) :
    record (pwrite l off b) off b.length = b := by
  apply List.ext_getElem?
  intro k
  rw [record_getElem?, pwrite_getD]
  by_cases hk : k < b.length
  · have : off ≤ off + k ∧ off + k < off + b.length := by omega
    simp [hk, List.getElem?_eq_getElem hk]
  · simp [hk, List.getElem?_eq_none (Nat.le_of_not_lt hk)]

theorem memset_storeAt0 (buf got : List Byte) (n : Nat) :
    memset (storeAt0 buf got) got.length n = got ++ List.replicate n 0 := by
  simp [memset, storeAt0]

/-! ## Machine integers -/

theorem toOffT_of_lt (x : Nat) (h : x < 2 ^ 63) : toOffT x = (x : Int) := by
  unfold toOffT
  have h1 : x % 2 ^ 64 = x := Nat.mod_eq_of_lt (by omega)
  rw [h1, if_pos h]

theorem toOffT_mulU64_neg (i m : Nat) (h : ¬ mulU64 i m < 2 ^ 63) : toOffT (mulU64 i m) < 0 := by
  unfold toOffT
  have h0 : mulU64 i m < 2 ^ 64 := Nat.mod_lt _ (by norm_num)
  have h1 : mulU64 i m % 2 ^ 64 = mulU64 i m := Nat.mod_eq_of_lt h0
  rw [h1, if_neg h]
  omega

theorem store_files_same (fs : FileSystem) (p : String) (v : Option (List Byte)) :
    (fs.store p v).files p = v := by
  simp [FileSystem.store]

theorem store_files_other (fs : FileSystem) (p q : String) (v : Option (List Byte))
    (h : q ≠ p) : (fs.store p v).files q = fs.files q := by
  simp [FileSystem.store, h]

theorem store_limit (fs : FileSystem) (p : String) (v : Option (List Byte)) :
    (fs.store p v).limit = fs.limit := rfl

theorem append_suffix_ne (a sfx : String) (h : sfx ≠ "") : a ≠ a ++ sfx := by
  intro heq
  have h1 : a.data = a.data ++ sfx.data := by
    have := congrArg String.data heq
    rwa [String.data_append] at this
  have h2 : sfx.data = [] := by
    have := congrArg List.length h1
    simp at this
    exact List.length_eq_zero.mp this
  exact h (String.ext h2)

theorem append_suffix_inj (a b sfx : String) (h : a ++ sfx = b ++ sfx) : a = b := by
  have h1 := congrArg String.data h
  rw [String.data_append, String.data_append] at h1
  exact String.ext (List.append_cancel_right h1)

/-! ## The C library calls -/

theorem fseeko_path (f : FILE) (off : Int) : (fseeko f off).2.path = f.path := by
  unfold fseeko
  split <;> rfl

theorem fseeko_nonneg (f : FILE) (off : Int) (h : 0 ≤ off) :
    fseeko f off = (0, ⟨f.path, off.toNat⟩) := by
  unfold fseeko
  rw [if_pos h]

theorem fseeko_neg (f : FILE) (off : Int) (h : off < 0) : fseeko f off = (-1, f) := by
  unfold fseeko
  rw [if_neg (by omega)]

theorem fwrite_path (buf : List Byte) (n : Nat) (f : FILE) (fs : FileSystem) :
    (fwrite buf n f fs).2.1.path = f.path := by
  simp only [fwrite]
  split <;> rfl

theorem fwrite_limit (buf : List Byte) (n : Nat) (f : FILE) (fs : FileSystem) :
    (fwrite buf n f fs).2.2.limit = fs.limit := by
  simp only [fwrite]
  split <;> rfl

/-- A write of a whole item that fits below the size limit stores the item. -/
theorem fwrite_fits (buf : List Byte) (f : FILE) (fs : FileSystem)
    (hne : buf ≠ []) (hfit : f.pos + buf.length ≤ fs.limit) :
    fwrite buf buf.length f fs =
      (1, ⟨f.path, f.pos + buf.length⟩,
        fs.store f.path (some (pwrite (fs.content f.path) f.pos buf))) := by
  unfold fwrite
  have h1 : (buf.take buf.length).take (fs.limit - f.pos) = buf := by
    rw [List.take_length, List.take_of_length_le (by omega)]
  simp only [h1]
  have h2 : buf.isEmpty = false := by
    cases buf with
    | nil => exact absurd rfl hne
    | cons a t => rfl
  simp [h2]

theorem content_store_same (fs : FileSystem) (p : String) (l : List Byte) :
    (fs.store p (some l)).content p = l := by
  simp [FileSystem.content, FileSystem.store]

/-- After a write of `m` bytes that fits below the size limit, the record at the
position of the stream is made of the bytes written. -/
theorem record_after_fwrite (b : List Byte) (m : Nat) (f : FILE) (fs : FileSystem)
    (hlen : b.length = m) (hfit : f.pos + m ≤ fs.limit) :
    record ((fwrite b m f fs).2.2.content f.path) f.pos m = b := by
  subst hlen
  by_cases hnil : b = []
  · subst hnil
    simp [record, bytesAt]
  · rw [fwrite_fits b f fs hnil hfit]
    simp only [content_store_same]
    exact record_pwrite_same _ _ _

namespace Bijou

variable {U D : Type}

theorem offset_of_lt (s : CustomCipherStream U D) (i : Nat)
    (h : mulU64 i s._cipher.MetadataSize < 2 ^ 63) :
    s.offset i = ((mulU64 i s._cipher.MetadataSize : Nat) : Int) :=
  toOffT_of_lt _ h

/-- A seek to a block whose offset fits `off_t` puts the stream at that offset. -/
theorem seek_of_lt (s : CustomCipherStream U D) (f : FILE) (i : Nat)
    (h : mulU64 i s._cipher.MetadataSize < 2 ^ 63) :
    (fseeko f (s.offset i)).2 = ⟨f.path, mulU64 i s._cipher.MetadataSize⟩ := by
  rw [offset_of_lt s i h, fseeko_nonneg _ _ (Int.ofNat_nonneg _)]
  simp

/-- The buffer handed to the callback: the record at the position the seek left. -/
theorem fetch_fst (s : CustomCipherStream U D) (fs : FileSystem) (i : Nat) (scratch : List Byte) :
    (s.fetch fs i scratch).1.val =
      record (fs.content s._file.path) (fseeko s._file (s.offset i)).2.pos
        s._cipher.MetadataSize := by
  simp only [CustomCipherStream.fetch, fread, memset_storeAt0, record, fseeko_path]

theorem fetch_fst_of_lt (s : CustomCipherStream U D) (fs : FileSystem) (i : Nat)
    (scratch : List Byte) (h : mulU64 i s._cipher.MetadataSize < 2 ^ 63) :
    (s.fetch fs i scratch).1.val =
      record (fs.content s._file.path) (mulU64 i s._cipher.MetadataSize)
        s._cipher.MetadataSize := by
  rw [fetch_fst, seek_of_lt s _ i h]

theorem fetch_snd_path (s : CustomCipherStream U D) (fs : FileSystem) (i : Nat)
    (scratch : List Byte) : (s.fetch fs i scratch).2.path = s._file.path := by
  simp only [CustomCipherStream.fetch, fread, fseeko_path]

/-- On an empty sidecar every block reads as zeros, wherever the stream stands. -/
theorem fetch_of_empty (s : CustomCipherStream U D) (fs : FileSystem) (i : Nat)
    (scratch : List Byte) (h : fs.content s._file.path = []) :
    (s.fetch fs i scratch).1.val = List.replicate s._cipher.MetadataSize 0 := by
  rw [fetch_fst, h, record_nil]

theorem EncryptBlock_cipher (s : CustomCipherStream U D) (fs : FileSystem) (i : Nat)
    (data scratch : List Byte) : (s.EncryptBlock fs i data scratch).stream._cipher = s._cipher := by
  simp only [CustomCipherStream.EncryptBlock]
  split <;> rfl

theorem EncryptBlock_path (s : CustomCipherStream U D) (fs : FileSystem) (i : Nat)
    (data scratch : List Byte) :
    (s.EncryptBlock fs i data scratch).stream._file.path = s._file.path := by
  simp only [CustomCipherStream.EncryptBlock]
  split
  · exact fetch_snd_path s fs i scratch
  · simp only [fwrite_path, fseeko_path]
    exact fetch_snd_path s fs i scratch

theorem EncryptBlock_limit (s : CustomCipherStream U D) (fs : FileSystem) (i : Nat)
    (data scratch : List Byte) : (s.EncryptBlock fs i data scratch).fs.limit = fs.limit := by
  simp only [CustomCipherStream.EncryptBlock]
  split
  · rfl
  · exact fwrite_limit _ _ _ _

/-- The status of `EncryptBlock` is decided by the callback alone. -/
theorem EncryptBlock_status (s : CustomCipherStream U D) (fs : FileSystem) (i : Nat)
    (data scratch : List Byte) :
    (s.EncryptBlock fs i data scratch).status =
      if (s._cipher.EncryptBlock s._cipher.userdata i data (s.fetch fs i scratch).1).1
      then Status.OK else Status.Corruption := by
  simp only [CustomCipherStream.EncryptBlock]
  cases (s._cipher.EncryptBlock s._cipher.userdata i data (s.fetch fs i scratch).1).1 <;> simp

theorem EncryptBlock_data_scratch (s : CustomCipherStream U D) (fs : FileSystem) (i : Nat)
    (data scratch : List Byte) :
    (s.EncryptBlock fs i data scratch).data =
      (s._cipher.EncryptBlock s._cipher.userdata i data (s.fetch fs i scratch).1).2.1 ∧
    (s.EncryptBlock fs i data scratch).scratch =
      (s._cipher.EncryptBlock s._cipher.userdata i data (s.fetch fs i scratch).1).2.2.val := by
  simp only [CustomCipherStream.EncryptBlock]
  split <;> exact ⟨rfl, rfl⟩

/-- The metadata that `EncryptBlock` leaves in the scratch buffer has `MetadataSize`
bytes. -/
theorem EncryptBlock_scratch_length (s : CustomCipherStream U D) (fs : FileSystem) (i : Nat)
    (data scratch : List Byte) :
    (s.EncryptBlock fs i data scratch).scratch.length = s._cipher.MetadataSize := by
  rw [(EncryptBlock_data_scratch s fs i data scratch).2]
  exact (s._cipher.EncryptBlock s._cipher.userdata i data (s.fetch fs i scratch).1).2.2.property

/-- After a successful `EncryptBlock` whose record fits below the size limit, the
record of the block is the metadata the callback left. -/
theorem EncryptBlock_record (s : CustomCipherStream U D) (fs : FileSystem) (i : Nat)
    (data scratch : List Byte)
    (hoff : mulU64 i s._cipher.MetadataSize < 2 ^ 63)
    (hlim : mulU64 i s._cipher.MetadataSize + s._cipher.MetadataSize ≤ fs.limit)
    (hok : (s.EncryptBlock fs i data scratch).status = Status.OK) :
    record ((s.EncryptBlock fs i data scratch).fs.content s._file.path)
      (mulU64 i s._cipher.MetadataSize) s._cipher.MetadataSize =
      (s.EncryptBlock fs i data scratch).scratch := by
  have hst := EncryptBlock_status s fs i data scratch
  have hds := (EncryptBlock_data_scratch s fs i data scratch).2
  have hlen := EncryptBlock_scratch_length s fs i data scratch
  generalize hM : (s._cipher.EncryptBlock s._cipher.userdata i data (s.fetch fs i scratch).1) = e
    at hst hds
  have he : e.1 = true := by
    cases h : e.1
    · rw [h] at hst; rw [hst] at hok; cases hok
    · rfl
  rw [hds] at hlen ⊢
  unfold CustomCipherStream.EncryptBlock
  simp only [hM, he, Bool.not_true, Bool.false_eq_true, if_false, seek_of_lt s _ i hoff]
  have h := record_after_fwrite e.2.2.val s._cipher.MetadataSize
    ⟨(s.fetch fs i scratch).2.path, mulU64 i s._cipher.MetadataSize⟩ fs hlen hlim
  simpa only [fetch_snd_path] using h

end Bijou

namespace Bijou

variable {U D : Type}

theorem DecryptBlock_scratch (s : CustomCipherStream U D) (fs : FileSystem) (i : Nat)
    (data scratch : List Byte) :
    (s.DecryptBlock fs i data scratch).scratch = (s.fetch fs i scratch).1.val := by
  simp only [CustomCipherStream.DecryptBlock]
  split <;> rfl

/-- The status and the data of `DecryptBlock` are those of the callback, run on the
buffer that `fetch` prepared. -/
theorem DecryptBlock_status_data (s : CustomCipherStream U D) (fs : FileSystem) (i : Nat)
    (data scratch : List Byte) :
    (s.DecryptBlock fs i data scratch).status =
      (if (s._cipher.DecryptBlock s._cipher.userdata i data (s.fetch fs i scratch).1).1
       then Status.OK else Status.Corruption) ∧
    (s.DecryptBlock fs i data scratch).data =
      (s._cipher.DecryptBlock s._cipher.userdata i data (s.fetch fs i scratch).1).2 := by
  simp only [CustomCipherStream.DecryptBlock]
  cases (s._cipher.DecryptBlock s._cipher.userdata i data (s.fetch fs i scratch).1).1 <;> simp

theorem new_of_existing (fs : FileSystem) (fname : String) (cipher : CustomCipher U D)
    (l : List Byte) (h : fs.files (fname ++ ".meta") = some l) :
    CustomCipherStream.new fs fname cipher = (⟨⟨fname ++ ".meta", 0⟩, cipher⟩, fs) := by
  simp [CustomCipherStream.new, fopen_rplus, h]

theorem new_of_absent (fs : FileSystem) (fname : String) (cipher : CustomCipher U D)
    (h : fs.files (fname ++ ".meta") = none) :
    CustomCipherStream.new fs fname cipher =
      (⟨⟨fname ++ ".meta", 0⟩, cipher⟩, fs.store (fname ++ ".meta") (some [])) := by
  simp [CustomCipherStream.new, fopen_rplus, fopen_wplus, h]

theorem new_stream (fs : FileSystem) (fname : String) (cipher : CustomCipher U D) :
    (CustomCipherStream.new fs fname cipher).1 = ⟨⟨fname ++ ".meta", 0⟩, cipher⟩ := by
  cases h : fs.files (fname ++ ".meta") with
  | none => rw [new_of_absent fs fname cipher h]
  | some l => rw [new_of_existing fs fname cipher l h]

theorem new_limit (fs : FileSystem) (fname : String) (cipher : CustomCipher U D) :
    (CustomCipherStream.new fs fname cipher).2.limit = fs.limit := by
  cases h : fs.files (fname ++ ".meta") with
  | none => rw [new_of_absent fs fname cipher h]; rfl
  | some l => rw [new_of_existing fs fname cipher l h]

/-- The constructor leaves the sidecar of the stream in existence. -/
theorem new_exists (fs : FileSystem) (fname : String) (cipher : CustomCipher U D) :
    ∃ l, (CustomCipherStream.new fs fname cipher).2.files (fname ++ ".meta") = some l := by
  cases h : fs.files (fname ++ ".meta") with
  | none => rw [new_of_absent fs fname cipher h]; exact ⟨[], store_files_same _ _ _⟩
  | some l => rw [new_of_existing fs fname cipher l h]; exact ⟨l, h⟩

/-- A write through `EncryptBlock` never removes the sidecar. -/
theorem EncryptBlock_exists (s : CustomCipherStream U D) (fs : FileSystem) (i : Nat)
    (data scratch : List Byte) (l : List Byte) (h : fs.files s._file.path = some l) :
    ∃ l', (s.EncryptBlock fs i data scratch).fs.files s._file.path = some l' := by
  simp only [CustomCipherStream.EncryptBlock]
  split
  · exact ⟨l, h⟩
  · simp only [fwrite]
    split
    · exact ⟨l, h⟩
    · simp only [fseeko_path, fetch_snd_path]
      exact ⟨_, store_files_same _ _ _⟩

/-- Generic form of the round trip: a stream with the same cipher, reading a file
whose content is the one a successful `EncryptBlock` left in the sidecar, fetches for
the same block the metadata the encrypt callback left. -/
theorem fetch_after_EncryptBlock (s t : CustomCipherStream U D) (fs fs' : FileSystem) (i : Nat)
    (P scratch scratch' : List Byte)
    (hcontent : fs'.content t._file.path = (s.EncryptBlock fs i P scratch).fs.content s._file.path)
    (hcipher : t._cipher = s._cipher)
    (hoff : mulU64 i s._cipher.MetadataSize < 2 ^ 63)
    (hlim : mulU64 i s._cipher.MetadataSize + s._cipher.MetadataSize ≤ fs.limit)
    (hok : (s.EncryptBlock fs i P scratch).status = Status.OK) :
    (t.fetch fs' i scratch').1.val = (s.EncryptBlock fs i P scratch).scratch := by
  rw [fetch_fst_of_lt t _ i scratch' (by rw [hcipher]; exact hoff), hcontent, hcipher]
  exact EncryptBlock_record s fs i P scratch hoff hlim hok

/-- When the decrypt callback undoes the encrypt callback, decrypting with the
metadata and the data that a successful `EncryptBlock` left restores the input. -/
theorem DecryptBlock_inverts (s t : CustomCipherStream U D) (fs fs' : FileSystem) (i : Nat)
    (P scratch scratch' : List Byte)
    (hcipher : t._cipher = s._cipher)
    (hfetch : (t.fetch fs' i scratch').1.val = (s.EncryptBlock fs i P scratch).scratch)
    (hok : (s.EncryptBlock fs i P scratch).status = Status.OK)
    (hinv : ∀ M₀ : Buf s._cipher.MetadataSize,
      (s._cipher.EncryptBlock s._cipher.userdata i P M₀).1 = true →
      s._cipher.DecryptBlock s._cipher.userdata i
        (s._cipher.EncryptBlock s._cipher.userdata i P M₀).2.1
        (s._cipher.EncryptBlock s._cipher.userdata i P M₀).2.2 = (true, P)) :
    (t.DecryptBlock fs' i (s.EncryptBlock fs i P scratch).data scratch').status = Status.OK ∧
    (t.DecryptBlock fs' i (s.EncryptBlock fs i P scratch).data scratch').data = P := by
  obtain ⟨f, c⟩ := t
  simp only at hcipher
  subst hcipher
  have hst := EncryptBlock_status s fs i P scratch
  have hds := EncryptBlock_data_scratch s fs i P scratch
  have he : (s._cipher.EncryptBlock s._cipher.userdata i P (s.fetch fs i scratch).1).1 = true := by
    cases h : (s._cipher.EncryptBlock s._cipher.userdata i P (s.fetch fs i scratch).1).1
    · rw [h] at hst; rw [hst] at hok; cases hok
    · rfl
  have hd := hinv _ he
  have hbuf : ((⟨f, s._cipher⟩ : CustomCipherStream U D).fetch fs' i scratch').1 =
      (s._cipher.EncryptBlock s._cipher.userdata i P (s.fetch fs i scratch).1).2.2 :=
    Subtype.ext (by rw [hfetch, hds.2])
  have := DecryptBlock_status_data (⟨f, s._cipher⟩ : CustomCipherStream U D) fs' i
    (s.EncryptBlock fs i P scratch).data scratch'
  simp only at this
  rw [hbuf, hds.1, hd] at this
  rw [hds.1]
  simpa using this

/-- Closing the stream after `EncryptBlock` and opening a new one on the same file
name finds the sidecar as `EncryptBlock` left it: nothing is truncated. -/
theorem reopen_after_EncryptBlock (s : CustomCipherStream U D) (fs : FileSystem)
    (fname : String) (i : Nat) (P scratch l : List Byte)
    (hpath : s._file.path = fname ++ ".meta") (hex : fs.files (fname ++ ".meta") = some l) :
    CustomCipherStream.new
        ((s.EncryptBlock fs i P scratch).stream.close (s.EncryptBlock fs i P scratch).fs)
        fname s._cipher =
      (⟨⟨fname ++ ".meta", 0⟩, s._cipher⟩, (s.EncryptBlock fs i P scratch).fs) := by
  obtain ⟨l', hl'⟩ := EncryptBlock_exists s fs i P scratch l (by rw [hpath]; exact hex)
  rw [hpath] at hl'
  exact new_of_existing _ fname s._cipher l' hl'

end Bijou

namespace Librocksdb

theorem seekg_of_fail (f : fstream) (pos : Int) (h : f.fail = true) : f.seekg pos = f := by
  simp [fstream.seekg, h]

theorem write_of_fail (f : fstream) (buf : List Byte) (n : Nat) (fs : FileSystem)
    (h : f.fail = true) : f.write buf n fs = (f, fs) := by
  simp [fstream.write, h]

theorem read_of_fail (f : fstream) (buf : List Byte) (n : Nat) (fs : FileSystem)
    (h : f.fail = true) : f.read buf n fs = (buf, f) := by
  simp [fstream.read, h]

/-- Opening the stream on a path that does not exist creates no file and leaves the
stream failed. -/
theorem open_of_absent (fs : FileSystem) (path : String) (h : fs.files path = none) :
    fstream.open fs path = ⟨path, true, 0⟩ := by
  simp [fstream.open, h]

/-- The status of `EncryptBlock` is decided by the callback alone. -/
theorem EncryptBlock_status_fstream (s : CustomCipherStream) (fs : FileSystem) (i : Nat)
    (data : List Byte) (scratch : Buf s._cipher.MetadataSize) :
    (s.EncryptBlock fs i data scratch).status =
      if (s._cipher.EncryptBlock i data scratch).1 then Status.OK else Status.Corruption := by
  simp only [CustomCipherStream.EncryptBlock]
  cases (s._cipher.EncryptBlock i data scratch).1 <;> simp

/-- When the encrypt callback fails nothing is written. -/
theorem EncryptBlock_fs_of_false (s : CustomCipherStream) (fs : FileSystem) (i : Nat)
    (data : List Byte) (scratch : Buf s._cipher.MetadataSize)
    (h : (s._cipher.EncryptBlock i data scratch).1 = false) :
    (s.EncryptBlock fs i data scratch).fs = fs := by
  simp [CustomCipherStream.EncryptBlock, h]

/-- The status of `DecryptBlock` is decided by the callback alone. -/
theorem DecryptBlock_status_fstream (s : CustomCipherStream) (fs : FileSystem) (i : Nat)
    (data : List Byte) (scratch : Buf s._cipher.MetadataSize) :
    (s.DecryptBlock fs i data scratch).status =
      if (s._cipher.DecryptBlock i data (s.fetch fs i scratch).1).1
      then Status.OK else Status.Corruption := by
  simp only [CustomCipherStream.DecryptBlock]
  cases (s._cipher.DecryptBlock i data (s.fetch fs i scratch).1).1 <;> simp

/-- On a failed stream `EncryptBlock` stores nothing and leaves the stream as it was. -/
theorem EncryptBlock_of_fail (s : CustomCipherStream) (fs : FileSystem) (i : Nat)
    (data : List Byte) (scratch : Buf s._cipher.MetadataSize) (h : s._file.fail = true) :
    (s.EncryptBlock fs i data scratch).fs = fs ∧
    (s.EncryptBlock fs i data scratch).stream = s := by
  simp only [CustomCipherStream.EncryptBlock]
  split
  · exact ⟨rfl, rfl⟩
  · simp only [seekg_of_fail _ _ h, write_of_fail _ _ _ _ h, and_self]

/-- On a failed stream the decrypt callback receives the scratch buffer of the
caller, untouched. -/
theorem fetch_of_fail (s : CustomCipherStream) (fs : FileSystem) (i : Nat)
    (scratch : Buf s._cipher.MetadataSize) (h : s._file.fail = true) :
    (s.fetch fs i scratch).1 = scratch := by
  apply Subtype.ext
  simp only [CustomCipherStream.fetch, seekg_of_fail _ _ h, read_of_fail _ _ _ _ h]

end Librocksdb

/-! ## Renaming -/

theorem rename_of_absent (fs : FileSystem) (src dest : String) (h : fs.files src = none) :
    rename fs src dest = (-1, fs) := by
  simp [rename, h]

theorem rename_of_existing (fs : FileSystem) (src dest : String) (l : List Byte)
    (h : fs.files src = some l) (hne : src ≠ dest) :
    rename fs src dest = (0, (fs.store dest (some l)).store src none) := by
  simp [rename, h, hne]

theorem rename_limit (fs : FileSystem) (src dest : String) :
    (rename fs src dest).2.limit = fs.limit := by
  unfold rename
  split
  · rfl
  · split <;> rfl

/-- A rename changes at most the two files it names. -/
theorem rename_files_other (fs : FileSystem) (src dest q : String) (hs : q ≠ src)
    (hd : q ≠ dest) : (rename fs src dest).2.files q = fs.files q := by
  unfold rename
  split
  · rfl
  · split
    · rfl
    · simp [FileSystem.store, hs, hd]

/-- A rename leaves a file other than its destination as it was, or removes it. -/
theorem rename_files_not_dest (fs : FileSystem) (src dest q : String) (hd : q ≠ dest) :
    (rename fs src dest).2.files q = fs.files q ∨ (rename fs src dest).2.files q = none := by
  by_cases hs : q = src
  · subst hs
    cases h : fs.files q with
    | none => left; rw [rename_of_absent fs q dest h, h]
    | some l =>
      right
      rw [rename_of_existing fs q dest l h hd]
      exact store_files_same _ _ _
  · left
    exact rename_files_other fs src dest q hs hd

theorem defaultRenameFile_ok (fs : FileSystem) (src dest : String)
    (h : (defaultRenameFile fs src dest).1 = IOStatus.OK) : ∃ l, fs.files src = some l := by
  cases hs : fs.files src with
  | none =>
    rw [defaultRenameFile, rename_of_absent fs src dest hs] at h
    simp at h
  | some l => exact ⟨l, rfl⟩

namespace Bijou

/-- With no sidecar to move, `RenameFile` is the rename of the wrapped file system. -/
theorem RenameFile_of_no_sidecar (w : CustomFileSystem) (fs : FileSystem) (src dest : String)
    (h : fs.files (src ++ ".meta") = none) : w.RenameFile fs src dest = w.target fs src dest := by
  rw [CustomFileSystem.RenameFile, rename_of_absent fs _ _ h]

/-- When `A` is not the sidecar name of `B`, a successful `RenameFile(A, B)` leaves in
`B + ".meta"` the bytes that `A + ".meta"` held. -/
theorem RenameFile_sidecar_arrives (fs : FileSystem) (A B : String) (bytes : List Byte)
    (hAB' : A ≠ B ++ ".meta")
    (hmeta : fs.files (A ++ ".meta") = some bytes)
    (hst : ((⟨defaultRenameFile⟩ : CustomFileSystem).RenameFile fs A B).1 = IOStatus.OK) :
    ((⟨defaultRenameFile⟩ : CustomFileSystem).RenameFile fs A B).2.files (B ++ ".meta")
      = some bytes := by
  have hA : A ≠ A ++ ".meta" := append_suffix_ne A ".meta" (by decide)
  have hB : B ≠ B ++ ".meta" := append_suffix_ne B ".meta" (by decide)
  by_cases hAB : A = B
  · subst hAB
    simp only [CustomFileSystem.RenameFile, rename, hmeta, if_true] at hst ⊢
    obtain ⟨l, hl⟩ := defaultRenameFile_ok _ _ _ hst
    simp only [defaultRenameFile, rename, hl, if_true]
    exact hmeta
  · have hne : A ++ ".meta" ≠ B ++ ".meta" := fun h => hAB (append_suffix_inj A B ".meta" h)
    simp only [CustomFileSystem.RenameFile, rename_of_existing fs _ _ bytes hmeta hne] at hst ⊢
    obtain ⟨l, hl⟩ := defaultRenameFile_ok _ _ _ hst
    simp only [defaultRenameFile, rename_of_existing _ A B l hl hAB]
    rw [store_files_other _ _ _ _ (Ne.symm hAB'), store_files_other _ _ _ _ (Ne.symm hB),
      store_files_other _ _ _ _ (Ne.symm hne), store_files_same]

/-- When `A` and `B` differ and `B` is not the sidecar name of `A`, a successful
`RenameFile(A, B)` leaves no file `A + ".meta"`. -/
theorem RenameFile_sidecar_leaves (fs : FileSystem) (A B : String) (bytes : List Byte)
    (hAB : A ≠ B) (hBA : B ≠ A ++ ".meta")
    (hmeta : fs.files (A ++ ".meta") = some bytes)
    (hst : ((⟨defaultRenameFile⟩ : CustomFileSystem).RenameFile fs A B).1 = IOStatus.OK) :
    ((⟨defaultRenameFile⟩ : CustomFileSystem).RenameFile fs A B).2.files (A ++ ".meta") = none := by
  have hne : A ++ ".meta" ≠ B ++ ".meta" := fun h => hAB (append_suffix_inj A B ".meta" h)
  have hA : A ≠ A ++ ".meta" := append_suffix_ne A ".meta" (by decide)
  simp only [CustomFileSystem.RenameFile, rename_of_existing fs _ _ bytes hmeta hne] at hst ⊢
  obtain ⟨l, hl⟩ := defaultRenameFile_ok _ _ _ hst
  simp only [defaultRenameFile, rename_of_existing _ A B l hl hAB]
  rw [store_files_other _ _ _ _ (Ne.symm hA), store_files_other _ _ _ _ (Ne.symm hBA),
    store_files_same]

/-- Renaming through `RenameFile` leaves the size limit of the device as it was. -/
theorem RenameFile_limit (fs : FileSystem) (A B : String) :
    ((⟨defaultRenameFile⟩ : CustomFileSystem).RenameFile fs A B).2.limit = fs.limit := by
  simp only [CustomFileSystem.RenameFile, defaultRenameFile, rename_limit]

end Bijou

namespace Bijou

variable {U D : Type}

end Bijou

/-! ## Sample objects -/

theorem sample_inverts {m : Nat} (i : Nat) (P : List Byte) (M₀ : Buf m) :
    sampleDecrypt i (sampleEncrypt i P M₀).2.1 (sampleEncrypt i P M₀).2.2 = (true, P) := by
  have h : ((fun x : Byte => x - 1) ∘ fun x => x + 1) = id := by
    funext x
    simp
  simp [sampleDecrypt, sampleEncrypt, h]

/-! ## C1: round trip on one stream -/

namespace Bijou

variable {U D : Type}

/-- C1 (amended): round trip on one stream. Let `r` be the result of `EncryptBlock(i, P)`
and `d` the result of the following `DecryptBlock(i, C)` on the same stream, `C` being
the data `r` left. For a block index `i` whose offset `i * MetadataSize mod 2^64` fits
`off_t` (is below `2^63`) and a record that fits below the size limit of the device: if
`r` is OK, the decrypt callback is handed exactly the metadata the encrypt callback
left, and for a descriptor whose decrypt undoes its encrypt `d` is OK with the data
buffer equal to `P`. -/
theorem roundtrip_same_stream (s : CustomCipherStream U D) (fs : FileSystem) (i : Nat)
    (P scratch scratch' : List Byte) (r d : BlockResult U D)
    (hr : r = s.EncryptBlock fs i P scratch)
    (hd : d = r.stream.DecryptBlock r.fs i r.data scratch')
    (hoff : mulU64 i s._cipher.MetadataSize < 2 ^ 63)
    (hlim : mulU64 i s._cipher.MetadataSize + s._cipher.MetadataSize ≤ fs.limit)
    (hok : r.status = Status.OK) :
    d.scratch = r.scratch ∧
    ((∀ M₀ : Buf s._cipher.MetadataSize,
        (s._cipher.EncryptBlock s._cipher.userdata i P M₀).1 = true →
        s._cipher.DecryptBlock s._cipher.userdata i
          (s._cipher.EncryptBlock s._cipher.userdata i P M₀).2.1
          (s._cipher.EncryptBlock s._cipher.userdata i P M₀).2.2 = (true, P)) →
      d.status = Status.OK ∧ d.data = P) := by
  subst hr hd
  have hf := fetch_after_EncryptBlock s (s.EncryptBlock fs i P scratch).stream fs
    (s.EncryptBlock fs i P scratch).fs i P scratch scratch'
    (by rw [EncryptBlock_path]) (EncryptBlock_cipher s fs i P scratch) hoff hlim hok
  refine ⟨by rw [DecryptBlock_scratch]; exact hf, fun hinv => ?_⟩
  exact DecryptBlock_inverts s _ fs _ i P scratch scratch'
    (EncryptBlock_cipher s fs i P scratch) hf hok hinv

end Bijou

/-- Witness for C1: block 3 of a sidecar with two bytes of metadata
per block. -/
theorem roundtrip_same_stream_witness :
    (seekableRun.stream.DecryptBlock seekableRun.fs 3 seekableRun.data [0, 0]).scratch = [7, 7] ∧
    (seekableRun.stream.DecryptBlock seekableRun.fs 3 seekableRun.data [0, 0]).status = Status.OK ∧
    (seekableRun.stream.DecryptBlock seekableRun.fs 3 seekableRun.data [0, 0]).data = [1, 2, 3, 4] := by
  have h := Bijou.roundtrip_same_stream (sampleStream 2) (mkFS [("a.meta", [])] 100) 3
    [1, 2, 3, 4] [0, 0] [0, 0] seekableRun
    (seekableRun.stream.DecryptBlock seekableRun.fs 3 seekableRun.data [0, 0]) rfl rfl
    (by decide) (by decide) (by decide)
  exact ⟨h.1, h.2 (fun M₀ _ => sample_inverts 3 [1, 2, 3, 4] M₀)⟩

/-- C1 as stated fails. First, block index `2^63` with one byte of metadata: the offset
does not fit `off_t`, both seeks fail, the record is written where the stream stood and
the following `DecryptBlock` reads past it. Second, a device with no room: the write
stores nothing and `EncryptBlock` still returns OK. In both runs the encrypt callback
left the metadata `[7]`, the decrypt callback receives `[0]` and `DecryptBlock` returns
Corruption, although the sample decrypt undoes the sample encrypt. -/
theorem roundtrip_fails_unseekable_or_full :
    (∀ (i : Nat) (P : List Byte) (M₀ : Buf 1),
      sampleDecrypt i (sampleEncrypt i P M₀).2.1 (sampleEncrypt i P M₀).2.2 = (true, P)) ∧
    (unseekableRun.status = Status.OK ∧ unseekableRun.scratch = [7] ∧
      (unseekableRun.stream.DecryptBlock unseekableRun.fs (2 ^ 63) unseekableRun.data [0]).scratch
        = [0] ∧
      (unseekableRun.stream.DecryptBlock unseekableRun.fs (2 ^ 63) unseekableRun.data [0]).status
        = Status.Corruption) ∧
    (fullDeviceRun.status = Status.OK ∧ fullDeviceRun.scratch = [7] ∧
      (fullDeviceRun.stream.DecryptBlock fullDeviceRun.fs 0 fullDeviceRun.data [0]).scratch
        = [0] ∧
      (fullDeviceRun.stream.DecryptBlock fullDeviceRun.fs 0 fullDeviceRun.data [0]).status
        = Status.Corruption) := by
  refine ⟨fun i P M₀ => sample_inverts i P M₀, ⟨?_, ?_, ?_, ?_⟩, ⟨?_, ?_, ?_, ?_⟩⟩ <;> decide

/-! ## C2: sidecar persistence -/

namespace Bijou

variable {U D : Type}

/-- C2 (amended): sidecar persistence. Opening a stream on a file whose sidecar exists
leaves the file system as it is. Let `s` be a stream opened on `fname`, `r` the result
of `EncryptBlock(i, P)` on it, `t` a new stream constructed on `fname` after `s` was
closed, and `d` the result of `DecryptBlock(i, C)` on `t`. For a block index `i` whose
offset `i * MetadataSize mod 2^64` fits `off_t` (is below `2^63`) and a record that fits
below the size limit of the device: if `r` is OK, constructing `t` alters nothing, the
decrypt callback is handed the metadata that was written, and for a descriptor whose
decrypt undoes its encrypt `d` is OK with the data buffer equal to `P`. -/
theorem sidecar_persistence (fs : FileSystem) (fname : String) (cipher : CustomCipher U D)
    (i : Nat) (P scratch scratch' : List Byte)
    (s t : CustomCipherStream U D) (fs₁ fs₂ : FileSystem) (r d : BlockResult U D)
    (hs : (s, fs₁) = CustomCipherStream.new fs fname cipher)
    (hr : r = s.EncryptBlock fs₁ i P scratch)
    (ht : (t, fs₂) = CustomCipherStream.new (r.stream.close r.fs) fname cipher)
    (hd : d = t.DecryptBlock fs₂ i r.data scratch')
    (hoff : mulU64 i cipher.MetadataSize < 2 ^ 63)
    (hlim : mulU64 i cipher.MetadataSize + cipher.MetadataSize ≤ fs.limit)
    (hok : r.status = Status.OK) :
    (∀ (fs' : FileSystem) (l : List Byte), fs'.files (fname ++ ".meta") = some l →
      (CustomCipherStream.new fs' fname cipher).2 = fs') ∧
    fs₂ = r.fs ∧
    d.scratch = r.scratch ∧
    ((∀ M₀ : Buf cipher.MetadataSize,
        (cipher.EncryptBlock cipher.userdata i P M₀).1 = true →
        cipher.DecryptBlock cipher.userdata i
          (cipher.EncryptBlock cipher.userdata i P M₀).2.1
          (cipher.EncryptBlock cipher.userdata i P M₀).2.2 = (true, P)) →
      d.status = Status.OK ∧ d.data = P) := by
  refine ⟨fun fs' l h => by rw [new_of_existing fs' fname cipher l h], ?_⟩
  obtain ⟨l, hl⟩ := new_exists fs fname cipher
  have hlimit := new_limit fs fname cipher
  have hs1 := new_stream fs fname cipher
  rw [← hs] at hl hlimit hs1
  simp only at hl hlimit hs1
  subst hs1 hr
  have hre := reopen_after_EncryptBlock
    (⟨⟨fname ++ ".meta", 0⟩, cipher⟩ : CustomCipherStream U D) fs₁ fname i P scratch l rfl hl
  simp only at hre
  rw [hre] at ht
  obtain ⟨ht1, ht2⟩ := Prod.mk.inj ht
  subst ht1 ht2 hd
  have hf := fetch_after_EncryptBlock
    (⟨⟨fname ++ ".meta", 0⟩, cipher⟩ : CustomCipherStream U D)
    (⟨⟨fname ++ ".meta", 0⟩, cipher⟩ : CustomCipherStream U D) fs₁
    ((⟨⟨fname ++ ".meta", 0⟩, cipher⟩ : CustomCipherStream U D).EncryptBlock fs₁ i P scratch).fs
    i P scratch scratch' rfl rfl hoff (by rw [hlimit]; exact hlim) hok
  refine ⟨rfl, by rw [DecryptBlock_scratch]; exact hf, fun hinv => ?_⟩
  exact DecryptBlock_inverts _ _ fs₁ _ i P scratch scratch' rfl hf hok hinv

end Bijou

/-- Witness for C2: block 3 of file `a`, two bytes of metadata per
block, the sidecar holding a record of another block beforehand. -/
theorem sidecar_persistence_witness :
    (persistDecrypt (mkFS [("a.meta", [9, 9])] 100) 2 3).scratch = [7, 7] ∧
    (persistDecrypt (mkFS [("a.meta", [9, 9])] 100) 2 3).status = Status.OK ∧
    (persistDecrypt (mkFS [("a.meta", [9, 9])] 100) 2 3).data = [1, 2, 3, 4] := by
  have h := Bijou.sidecar_persistence (mkFS [("a.meta", [9, 9])] 100) "a" (sampleCipher 2) 3
    [1, 2, 3, 4] [0, 0] [0, 0] _ _ _ _ (persistEncrypt (mkFS [("a.meta", [9, 9])] 100) 2 3)
    (persistDecrypt (mkFS [("a.meta", [9, 9])] 100) 2 3) rfl rfl rfl rfl
    (by decide) (by decide) (by decide)
  exact ⟨h.2.2.1, h.2.2.2 (fun M₀ _ => sample_inverts 3 [1, 2, 3, 4] M₀)⟩

/-- C2 as stated fails. With block index `2^63` and one byte of metadata on a sidecar
that holds `[9]`, the seeks fail: the record `[7]` is written after the byte read, and
the new stream reads `[9]` from the start of the file. On a device with no room the
write stores nothing and the new stream reads zeros. In both runs `EncryptBlock`
returned OK and `DecryptBlock` on the reopened stream returns Corruption. -/
theorem persistence_fails_unseekable_or_full :
    ((persistEncrypt (mkFS [("a.meta", [9])] 100) 1 (2 ^ 63)).status = Status.OK ∧
      (persistEncrypt (mkFS [("a.meta", [9])] 100) 1 (2 ^ 63)).scratch = [7] ∧
      (persistDecrypt (mkFS [("a.meta", [9])] 100) 1 (2 ^ 63)).scratch = [9] ∧
      (persistDecrypt (mkFS [("a.meta", [9])] 100) 1 (2 ^ 63)).status = Status.Corruption) ∧
    ((persistEncrypt (mkFS [("a.meta", [])] 0) 1 0).status = Status.OK ∧
      (persistEncrypt (mkFS [("a.meta", [])] 0) 1 0).scratch = [7] ∧
      (persistDecrypt (mkFS [("a.meta", [])] 0) 1 0).scratch = [0] ∧
      (persistDecrypt (mkFS [("a.meta", [])] 0) 1 0).status = Status.Corruption) := by
  refine ⟨⟨?_, ?_, ?_, ?_⟩, ⟨?_, ?_, ?_, ?_⟩⟩ <;> decide

/-! ## C3: zero padding -/

namespace Bijou

variable {U D : Type}

end Bijou

/-- C4: a callback failure is reported as Corruption and persists nothing. In both
variants: when the encrypt callback returns false, `EncryptBlock` returns Corruption
and the file system is what it was before the call; when the decrypt callback returns
false, `DecryptBlock` returns Corruption, whatever the sidecar contains; a descriptor
whose decrypt always returns false makes every `DecryptBlock` call return Corruption. -/
theorem callback_failure_is_corruption {U D : Type} (s : Bijou.CustomCipherStream U D)
    (t : Librocksdb.CustomCipherStream) (fs : FileSystem) (i : Nat) (data scratch : List Byte)
    (scratchL : Buf t._cipher.MetadataSize) :
    ((s._cipher.EncryptBlock s._cipher.userdata i data (s.fetch fs i scratch).1).1 = false →
      (s.EncryptBlock fs i data scratch).status = Status.Corruption ∧
      (s.EncryptBlock fs i data scratch).fs = fs) ∧
    ((s._cipher.DecryptBlock s._cipher.userdata i data (s.fetch fs i scratch).1).1 = false →
      (s.DecryptBlock fs i data scratch).status = Status.Corruption) ∧
    ((∀ (u : U) (k : Nat) (d : List Byte) (md : Buf s._cipher.MetadataSize),
        (s._cipher.DecryptBlock u k d md).1 = false) →
      (s.DecryptBlock fs i data scratch).status = Status.Corruption) ∧
    ((t._cipher.EncryptBlock i data scratchL).1 = false →
      (t.EncryptBlock fs i data scratchL).status = Status.Corruption ∧
      (t.EncryptBlock fs i data scratchL).fs = fs) ∧
    ((t._cipher.DecryptBlock i data (t.fetch fs i scratchL).1).1 = false →
      (t.DecryptBlock fs i data scratchL).status = Status.Corruption) ∧
    ((∀ (k : Nat) (d : List Byte) (md : Buf t._cipher.MetadataSize),
        (t._cipher.DecryptBlock k d md).1 = false) →
      (t.DecryptBlock fs i data scratchL).status = Status.Corruption) := by
  refine ⟨fun h => ⟨?_, ?_⟩, fun h => ?_, fun h => ?_, fun h => ⟨?_, ?_⟩, fun h => ?_, fun h => ?_⟩
  · rw [Bijou.EncryptBlock_status, h]; rfl
  · simp [Bijou.CustomCipherStream.EncryptBlock, h]
  · rw [(Bijou.DecryptBlock_status_data s fs i data scratch).1, h]; rfl
  · rw [(Bijou.DecryptBlock_status_data s fs i data scratch).1, h]; rfl
  · rw [Librocksdb.EncryptBlock_status_fstream, h]; rfl
  · exact Librocksdb.EncryptBlock_fs_of_false t fs i data scratchL h
  · rw [Librocksdb.DecryptBlock_status_fstream, h]; rfl
  · rw [Librocksdb.DecryptBlock_status_fstream, h]; rfl

/-- Witness for C4: ciphers whose callbacks fail, on sidecars that hold a record. -/
theorem callback_failure_is_corruption_witness :
    (((⟨⟨"a.meta", 0⟩, failingCipher 1⟩ : Bijou.CustomCipherStream Unit Unit).EncryptBlock
        (mkFS [("a.meta", [9]), ("a.aead", [9])] 100) 0 [1, 2, 3, 4] [0]).status = Status.Corruption ∧
      ((⟨⟨"a.meta", 0⟩, failingCipher 1⟩ : Bijou.CustomCipherStream Unit Unit).EncryptBlock
        (mkFS [("a.meta", [9]), ("a.aead", [9])] 100) 0 [1, 2, 3, 4] [0]).fs =
        mkFS [("a.meta", [9]), ("a.aead", [9])] 100) ∧
    ((⟨⟨"a.meta", 0⟩, failingCipher 1⟩ : Bijou.CustomCipherStream Unit Unit).DecryptBlock
        (mkFS [("a.meta", [9]), ("a.aead", [9])] 100) 0 [1, 2, 3, 4] [0]).status = Status.Corruption ∧
    (((⟨⟨"a.aead", false, 0⟩, failingCipherL 1⟩ : Librocksdb.CustomCipherStream).EncryptBlock
        (mkFS [("a.meta", [9]), ("a.aead", [9])] 100) 0 [1, 2, 3, 4] (zeros 1)).status
        = Status.Corruption ∧
      ((⟨⟨"a.aead", false, 0⟩, failingCipherL 1⟩ : Librocksdb.CustomCipherStream).EncryptBlock
        (mkFS [("a.meta", [9]), ("a.aead", [9])] 100) 0 [1, 2, 3, 4] (zeros 1)).fs =
        mkFS [("a.meta", [9]), ("a.aead", [9])] 100) ∧
    ((⟨⟨"a.aead", false, 0⟩, failingCipherL 1⟩ : Librocksdb.CustomCipherStream).DecryptBlock
        (mkFS [("a.meta", [9]), ("a.aead", [9])] 100) 0 [1, 2, 3, 4] (zeros 1)).status
        = Status.Corruption := by
  have h := callback_failure_is_corruption
    (⟨⟨"a.meta", 0⟩, failingCipher 1⟩ : Bijou.CustomCipherStream Unit Unit)
    (⟨⟨"a.aead", false, 0⟩, failingCipherL 1⟩ : Librocksdb.CustomCipherStream)
    (mkFS [("a.meta", [9]), ("a.aead", [9])] 100) 0 [1, 2, 3, 4] [0] (zeros 1)
  exact ⟨h.1 rfl, h.2.2.1 (fun _ _ _ _ => rfl), h.2.2.2.1 rfl, h.2.2.2.2.2 (fun _ _ _ => rfl)⟩

/-! ## C5: rename preserves decodability -/

namespace Bijou

variable {U D : Type}

/-- C5 (amended): rename preserves decodability when `A` is not the sidecar name of `B`.
First, in every file system state in which `A + ".meta"` exists, after a
`RenameFile(A, B)` whose underlying rename succeeds, `B + ".meta"` holds the bytes
`A + ".meta"` held; and `A + ".meta"` no longer exists when moreover `A` and `B` differ
and `B` is not the sidecar name of `A`. Second, let `r` be the result of
`EncryptBlock(i, P)` on a stream opened on `A`, and `d` the result of
`DecryptBlock(i, C)` on a new stream opened on `B` after the stream on `A` was closed
and `A` was renamed to `B`. For a block index `i` whose offset `i * MetadataSize mod
2^64` fits `off_t` (is below `2^63`) and a record that fits below the size limit of the
device: if `r` is OK the decrypt callback is handed the metadata that was written, and
for a descriptor whose decrypt undoes its encrypt `d` is OK with the data buffer equal
to `P`. -/
theorem rename_preserves_decodability (A B : String)
    (fs : FileSystem) (bytes : List Byte) (ren : IOStatus × FileSystem)
    (fs₀ : FileSystem) (cipher : CustomCipher U D) (i : Nat) (P scratch scratch' : List Byte)
    (s t : CustomCipherStream U D) (fs₁ fs₂ : FileSystem) (r d : BlockResult U D)
    (ren' : IOStatus × FileSystem)
    (hAB' : A ≠ B ++ ".meta")
    (hmeta : fs.files (A ++ ".meta") = some bytes)
    (hren : ren = (⟨defaultRenameFile⟩ : CustomFileSystem).RenameFile fs A B)
    (hst : ren.1 = IOStatus.OK)
    (hs : (s, fs₁) = CustomCipherStream.new fs₀ A cipher)
    (hr : r = s.EncryptBlock fs₁ i P scratch)
    (hren' : ren' = (⟨defaultRenameFile⟩ : CustomFileSystem).RenameFile (r.stream.close r.fs) A B)
    (hst' : ren'.1 = IOStatus.OK)
    (ht : (t, fs₂) = CustomCipherStream.new ren'.2 B cipher)
    (hd : d = t.DecryptBlock fs₂ i r.data scratch')
    (hoff : mulU64 i cipher.MetadataSize < 2 ^ 63)
    (hlim : mulU64 i cipher.MetadataSize + cipher.MetadataSize ≤ fs₀.limit)
    (hok : r.status = Status.OK) :
    ren.2.files (B ++ ".meta") = some bytes ∧
    (A ≠ B → B ≠ A ++ ".meta" → ren.2.files (A ++ ".meta") = none) ∧
    d.scratch = r.scratch ∧
    ((∀ M₀ : Buf cipher.MetadataSize,
        (cipher.EncryptBlock cipher.userdata i P M₀).1 = true →
        cipher.DecryptBlock cipher.userdata i
          (cipher.EncryptBlock cipher.userdata i P M₀).2.1
          (cipher.EncryptBlock cipher.userdata i P M₀).2.2 = (true, P)) →
      d.status = Status.OK ∧ d.data = P) := by
  subst hren
  refine ⟨RenameFile_sidecar_arrives fs A B bytes hAB' hmeta hst,
    fun hAB hBA => RenameFile_sidecar_leaves fs A B bytes hAB hBA hmeta hst, ?_⟩
  obtain ⟨l, hl⟩ := new_exists fs₀ A cipher
  have hlimit := new_limit fs₀ A cipher
  have hs1 := new_stream fs₀ A cipher
  rw [← hs] at hl hlimit hs1
  simp only at hl hlimit hs1
  subst hs1 hr
  obtain ⟨l', hl'⟩ := EncryptBlock_exists
    (⟨⟨A ++ ".meta", 0⟩, cipher⟩ : CustomCipherStream U D) fs₁ i P scratch l hl
  simp only at hl'
  subst hren'
  simp only [CustomCipherStream.close, fclose] at hst' ht
  have h2 := RenameFile_sidecar_arrives _ A B l' hAB' hl' hst'
  rw [new_of_existing _ B cipher l' h2] at ht
  obtain ⟨ht1, ht2⟩ := Prod.mk.inj ht
  subst ht1 ht2 hd
  have hf := fetch_after_EncryptBlock
    (⟨⟨A ++ ".meta", 0⟩, cipher⟩ : CustomCipherStream U D)
    (⟨⟨B ++ ".meta", 0⟩, cipher⟩ : CustomCipherStream U D) fs₁
    ((⟨defaultRenameFile⟩ : CustomFileSystem).RenameFile
      ((⟨⟨A ++ ".meta", 0⟩, cipher⟩ : CustomCipherStream U D).EncryptBlock fs₁ i P scratch).fs
      A B).2
    i P scratch scratch'
    (by simp only [FileSystem.content, h2, hl']) rfl hoff (by rw [hlimit]; exact hlim) hok
  refine ⟨by rw [DecryptBlock_scratch]; exact hf, fun hinv => ?_⟩
  exact DecryptBlock_inverts _ _ fs₁ _ i P scratch scratch' rfl hf hok hinv

end Bijou

/-- Witness for C5: file `a` renamed to `b`, block 3, two
bytes of metadata per block. -/
theorem rename_preserves_decodability_witness :
    ((⟨defaultRenameFile⟩ : Bijou.CustomFileSystem).RenameFile
      (mkFS [("a", [1]), ("a.meta", [9, 9])] 100) "a" "b").2.files ("b" ++ ".meta") = some [9, 9] ∧
    ((⟨defaultRenameFile⟩ : Bijou.CustomFileSystem).RenameFile
      (mkFS [("a", [1]), ("a.meta", [9, 9])] 100) "a" "b").2.files ("a" ++ ".meta") = none ∧
    (renameDecrypt (mkFS [("a", [1])] 100) 2 3).scratch = [7, 7] ∧
    (renameDecrypt (mkFS [("a", [1])] 100) 2 3).status = Status.OK ∧
    (renameDecrypt (mkFS [("a", [1])] 100) 2 3).data = [1, 2, 3, 4] := by
  have h := Bijou.rename_preserves_decodability "a" "b"
    (mkFS [("a", [1]), ("a.meta", [9, 9])] 100) [9, 9] _
    (mkFS [("a", [1])] 100) (sampleCipher 2) 3 [1, 2, 3, 4] [0, 0] [0, 0] _ _ _ _
    (persistEncrypt (mkFS [("a", [1])] 100) 2 3) (renameDecrypt (mkFS [("a", [1])] 100) 2 3)
    (renameStep (mkFS [("a", [1])] 100) 2 3)
    (by decide) (by decide) rfl (by decide) rfl rfl rfl (by decide)
    rfl rfl (by decide) (by decide) (by decide)
  exact ⟨h.1, h.2.1 (by decide) (by decide), h.2.2.1,
    h.2.2.2 (fun M₀ _ => sample_inverts 3 [1, 2, 3, 4] M₀)⟩

/-- C5 as stated fails. Renaming `a` to itself succeeds and `a.meta` still exists.
Renaming `a` to `a.meta` succeeds and `a.meta` exists afterwards, holding the data of
`a`. Renaming `b.meta` to `b` succeeds and leaves no `b.meta` at all, so that a stream
then opened on `b` starts from an empty sidecar. With block index
`2^63` (the seeks fail) or on a device with no room (the write stores nothing),
`EncryptBlock` on `a` returns OK with metadata `[7]`, the rename succeeds, and the
stream on `b` hands the decrypt callback other bytes and returns Corruption. -/
theorem rename_fails_colliding_unseekable_or_full :
    (((⟨defaultRenameFile⟩ : Bijou.CustomFileSystem).RenameFile
        (mkFS [("a", [1]), ("a.meta", [9])] 100) "a" "a").1 = IOStatus.OK ∧
      ((⟨defaultRenameFile⟩ : Bijou.CustomFileSystem).RenameFile
        (mkFS [("a", [1]), ("a.meta", [9])] 100) "a" "a").2.files ("a" ++ ".meta") = some [9]) ∧
    (((⟨defaultRenameFile⟩ : Bijou.CustomFileSystem).RenameFile
        (mkFS [("a", [1]), ("a.meta", [9])] 100) "a" "a.meta").1 = IOStatus.OK ∧
      ((⟨defaultRenameFile⟩ : Bijou.CustomFileSystem).RenameFile
        (mkFS [("a", [1]), ("a.meta", [9])] 100) "a" "a.meta").2.files ("a" ++ ".meta") = some [1]) ∧
    (((⟨defaultRenameFile⟩ : Bijou.CustomFileSystem).RenameFile
        (mkFS [("b.meta", [1]), ("b.meta.meta", [9])] 100) "b.meta" "b").1 = IOStatus.OK ∧
      ((⟨defaultRenameFile⟩ : Bijou.CustomFileSystem).RenameFile
        (mkFS [("b.meta", [1]), ("b.meta.meta", [9])] 100) "b.meta" "b").2.files ("b" ++ ".meta")
        = none) ∧
    ((persistEncrypt (mkFS [("a", [1]), ("a.meta", [9])] 100) 1 (2 ^ 63)).status = Status.OK ∧
      (persistEncrypt (mkFS [("a", [1]), ("a.meta", [9])] 100) 1 (2 ^ 63)).scratch = [7] ∧
      (renameStep (mkFS [("a", [1]), ("a.meta", [9])] 100) 1 (2 ^ 63)).1 = IOStatus.OK ∧
      (renameDecrypt (mkFS [("a", [1]), ("a.meta", [9])] 100) 1 (2 ^ 63)).scratch = [9] ∧
      (renameDecrypt (mkFS [("a", [1]), ("a.meta", [9])] 100) 1 (2 ^ 63)).status
        = Status.Corruption) ∧
    ((persistEncrypt (mkFS [("a", [])] 0) 1 0).status = Status.OK ∧
      (persistEncrypt (mkFS [("a", [])] 0) 1 0).scratch = [7] ∧
      (renameStep (mkFS [("a", [])] 0) 1 0).1 = IOStatus.OK ∧
      (renameDecrypt (mkFS [("a", [])] 0) 1 0).scratch = [0] ∧
      (renameDecrypt (mkFS [("a", [])] 0) 1 0).status = Status.Corruption) := by
  refine ⟨⟨?_, ?_⟩, ⟨?_, ?_⟩, ⟨?_, ?_⟩, ⟨?_, ?_, ?_, ?_, ?_⟩, ⟨?_, ?_, ?_, ?_, ?_⟩⟩ <;> decide

/-! ## C6: destroy on teardown -/

/-- C6 evaluated on the code: whatever the caller passes, the descriptor stored in the
provider has the caller's userdata, sizes and encrypt/decrypt callbacks but a null
`Destroy`, and the destructor of the provider calls through that null pointer: it
makes no call `destroy(userdata)`. -/
theorem create_env_drops_destroy {U D : Type} (userdata : U) (metadataSize blockSize : Nat)
    (encryptBlock : U → Nat → List Byte → Buf metadataSize → Bool × List Byte × Buf metadataSize)
    (decryptBlock : U → Nat → List Byte → Buf metadataSize → Bool × List Byte) (destroy : D) :
    (Bijou.rocksdb_create_encrypted_env userdata metadataSize blockSize encryptBlock
        decryptBlock destroy).provider._cipher =
      ⟨userdata, metadataSize, blockSize, encryptBlock, decryptBlock, none⟩ ∧
    (Bijou.rocksdb_create_encrypted_env userdata metadataSize blockSize encryptBlock
        decryptBlock destroy).provider._cipher.Destroy ≠ some destroy ∧
    (Bijou.rocksdb_create_encrypted_env userdata metadataSize blockSize encryptBlock
        decryptBlock destroy).provider.dtor = none ∧
    (Bijou.rocksdb_create_encrypted_env userdata metadataSize blockSize encryptBlock
        decryptBlock destroy).provider.dtor ≠ some [(destroy, userdata)] := by
  refine ⟨rfl, ?_, rfl, ?_⟩
  · intro h; cases h
  · intro h; cases h

/-! ## C7: sidecar write failures -/

/-- C7 (amended): in both variants `EncryptBlock` returns OK exactly when the encrypt
callback returns true and Corruption otherwise, on every stream and file system:
whether the seek and the write of the record succeed does not enter the status. -/
theorem encrypt_status_ignores_write {U D : Type} (s : Bijou.CustomCipherStream U D)
    (t : Librocksdb.CustomCipherStream) (fs : FileSystem) (i : Nat) (data scratch : List Byte)
    (scratchL : Buf t._cipher.MetadataSize) :
    ((s.EncryptBlock fs i data scratch).status =
      if (s._cipher.EncryptBlock s._cipher.userdata i data (s.fetch fs i scratch).1).1
      then Status.OK else Status.Corruption) ∧
    ((t.EncryptBlock fs i data scratchL).status =
      if (t._cipher.EncryptBlock i data scratchL).1 then Status.OK else Status.Corruption) :=
  ⟨Bijou.EncryptBlock_status s fs i data scratch,
    Librocksdb.EncryptBlock_status_fstream t fs i data scratchL⟩

/-- C7 as stated fails. On a device with no room `fwrite` reports that it wrote no
item, the sidecar stays empty and `EncryptBlock` returns OK. At block index `2^63`
`fseeko` reports failure and `EncryptBlock` returns OK. In the librocksdb-sys variant,
on a stream whose open failed, nothing is written and `EncryptBlock` returns OK. -/
theorem write_failure_not_reported :
    ((fwrite [7] 1 ⟨"a.meta", 0⟩ (mkFS [("a.meta", [])] 0)).1 = 0 ∧
      fullDeviceRun.status = Status.OK ∧ fullDeviceRun.scratch = [7] ∧
      fullDeviceRun.fs.files "a.meta" = some []) ∧
    ((fseeko ⟨"a.meta", 0⟩ ((sampleStream 1).offset (2 ^ 63))).1 = -1 ∧
      unseekableRun.status = Status.OK) ∧
    ((Librocksdb.CustomCipherStream.new (mkFS [] 100) "a" (sampleCipherL 1))._file.fail = true ∧
      ((Librocksdb.CustomCipherStream.new (mkFS [] 100) "a" (sampleCipherL 1)).EncryptBlock
        (mkFS [] 100) 0 [1, 2, 3, 4] (zeros 1)).status = Status.OK ∧
      ((Librocksdb.CustomCipherStream.new (mkFS [] 100) "a" (sampleCipherL 1)).EncryptBlock
        (mkFS [] 100) 0 [1, 2, 3, 4] (zeros 1)).fs.files "a.aead" = none) := by
  refine ⟨⟨?_, ?_, ?_, ?_⟩, ⟨?_, ?_⟩, ⟨?_, ?_, ?_⟩⟩ <;> decide

/-! ## C8: create-if-absent in the librocksdb-sys variant -/

namespace Librocksdb

/-- C8 evaluated on the code: when the sidecar does not exist, `CreateCipherStream`
returns OK with a stream `s` whose open failed, and no sidecar is created. A following
`EncryptBlock` on `s`, also one that returns OK, leaves the stream and the file system
as they were: the sidecar is still absent and no record is stored. A following
`DecryptBlock` hands the decrypt callback the scratch buffer of its caller, not the
record. -/
theorem absent_sidecar_not_created (p : CustomEncryptionProvider) (fs : FileSystem)
    (fname : String) (i : Nat) (data data' : List Byte) (s : CustomCipherStream)
    (hs : s = (p.CreateCipherStream fs fname).2)
    (scratch scratch' : Buf s._cipher.MetadataSize)
    (habsent : fs.files (fname ++ ".aead") = none) :
    (p.CreateCipherStream fs fname).1 = Status.OK ∧
    s._file.fail = true ∧
    (s.EncryptBlock fs i data scratch).stream = s ∧
    (s.EncryptBlock fs i data scratch).fs = fs ∧
    (s.EncryptBlock fs i data scratch).fs.files (fname ++ ".aead") = none ∧
    (s.fetch fs i scratch').1 = scratch' ∧
    (s.DecryptBlock fs i data' scratch').status =
      (if (s._cipher.DecryptBlock i data' scratch').1 then Status.OK else Status.Corruption) := by
  have hfail : s._file.fail = true := by
    rw [hs]
    simp [CustomEncryptionProvider.CreateCipherStream, CustomCipherStream.new,
      open_of_absent fs _ habsent]
  have he := EncryptBlock_of_fail s fs i data scratch hfail
  have hf := fetch_of_fail s fs i scratch' hfail
  refine ⟨rfl, hfail, he.2, he.1, by rw [he.1]; exact habsent, hf, ?_⟩
  rw [DecryptBlock_status_fstream, hf]

end Librocksdb

/-- Witness for C8: file `a` in an empty file system, one byte of metadata.
`EncryptBlock(0, ·)` returns OK and leaves `[7]` as metadata; no file `a.aead` exists
afterwards and `DecryptBlock(0, ·)` hands the zero byte of its caller's scratch buffer
to the decrypt callback, which rejects it. -/
theorem absent_sidecar_not_created_witness :
    (((⟨sampleCipherL 1⟩ : Librocksdb.CustomEncryptionProvider).CreateCipherStream (mkFS [] 100)
        "a").2.EncryptBlock (mkFS [] 100) 0 [1, 2, 3, 4] (zeros 1)).status = Status.OK ∧
    (((⟨sampleCipherL 1⟩ : Librocksdb.CustomEncryptionProvider).CreateCipherStream (mkFS [] 100)
        "a").2.EncryptBlock (mkFS [] 100) 0 [1, 2, 3, 4] (zeros 1)).scratch = [7] ∧
    (((⟨sampleCipherL 1⟩ : Librocksdb.CustomEncryptionProvider).CreateCipherStream (mkFS [] 100)
        "a").2.EncryptBlock (mkFS [] 100) 0 [1, 2, 3, 4] (zeros 1)).fs.files ("a" ++ ".aead")
      = none ∧
    ((((⟨sampleCipherL 1⟩ : Librocksdb.CustomEncryptionProvider).CreateCipherStream (mkFS [] 100)
        "a").2.fetch (mkFS [] 100) 0 (zeros 1)).1 = zeros 1) ∧
    (((⟨sampleCipherL 1⟩ : Librocksdb.CustomEncryptionProvider).CreateCipherStream (mkFS [] 100)
        "a").2.DecryptBlock (mkFS [] 100) 0 [2, 3, 4, 5] (zeros 1)).status = Status.Corruption := by
  have h := Librocksdb.absent_sidecar_not_created ⟨sampleCipherL 1⟩ (mkFS [] 100) "a" 0
    [1, 2, 3, 4] [2, 3, 4, 5] _ rfl (zeros 1) (zeros 1) (by decide)
  exact ⟨by decide, by decide, h.2.2.2.2.1, h.2.2.2.2.2.1, by rw [h.2.2.2.2.2.2]; decide⟩

/-! ## C9: rename of a file without a sidecar -/

namespace Bijou

variable {U D : Type}

/-- C9 (amended): rename of a file without a sidecar. When `src + ".meta"` does not
exist, `RenameFile(src, dest)` is exactly the rename of the wrapped file system: same
status, same resulting state. With the default file system wrapped, `dest + ".meta"`
is left as it was (unless it is the file `src` itself); so when `dest + ".meta"` did
not exist either it does not exist afterwards, and a stream then opened on `dest`
hands both callbacks all-zero metadata for every block index. -/
theorem rename_without_sidecar (w : CustomFileSystem) (fs : FileSystem) (src dest : String)
    (cipher : CustomCipher U D) (i : Nat) (data scratch : List Byte)
    (t : CustomCipherStream U D) (fs₁ : FileSystem)
    (ht : (t, fs₁) = CustomCipherStream.new
      ((⟨defaultRenameFile⟩ : CustomFileSystem).RenameFile fs src dest).2 dest cipher)
    (hsrc : fs.files (src ++ ".meta") = none) :
    w.RenameFile fs src dest = w.target fs src dest ∧
    (src ≠ dest ++ ".meta" →
      ((⟨defaultRenameFile⟩ : CustomFileSystem).RenameFile fs src dest).2.files (dest ++ ".meta")
        = fs.files (dest ++ ".meta")) ∧
    (fs.files (dest ++ ".meta") = none →
      ((⟨defaultRenameFile⟩ : CustomFileSystem).RenameFile fs src dest).2.files (dest ++ ".meta")
        = none ∧
      (t.DecryptBlock fs₁ i data scratch).scratch = List.replicate cipher.MetadataSize 0 ∧
      (t.EncryptBlock fs₁ i data scratch).scratch =
        (cipher.EncryptBlock cipher.userdata i data (zeros cipher.MetadataSize)).2.2.val) := by
  have hd : dest ++ ".meta" ≠ dest := Ne.symm (append_suffix_ne dest ".meta" (by decide))
  have hR : ((⟨defaultRenameFile⟩ : CustomFileSystem).RenameFile fs src dest).2
      = (rename fs src dest).2 := by
    rw [RenameFile_of_no_sidecar _ fs src dest hsrc]
    rfl
  refine ⟨RenameFile_of_no_sidecar w fs src dest hsrc, fun hne => ?_, fun hdest => ?_⟩
  · rw [hR]
    exact rename_files_other fs src dest _ (Ne.symm hne) hd
  · have hnone : ((⟨defaultRenameFile⟩ : CustomFileSystem).RenameFile fs src dest).2.files
        (dest ++ ".meta") = none := by
      rw [hR]
      rcases rename_files_not_dest fs src dest _ hd with h | h
      · rw [h, hdest]
      · exact h
    rw [new_of_absent _ dest cipher hnone] at ht
    obtain ⟨ht1, ht2⟩ := Prod.mk.inj ht
    subst ht1 ht2
    have hf : ∀ sc : List Byte,
        ((⟨⟨dest ++ ".meta", 0⟩, cipher⟩ : CustomCipherStream U D).fetch
          (((⟨defaultRenameFile⟩ : CustomFileSystem).RenameFile fs src dest).2.store
            (dest ++ ".meta") (some [])) i sc).1 = zeros cipher.MetadataSize :=
      fun sc => Subtype.ext (fetch_of_empty _ _ i sc (content_store_same _ _ _))
    refine ⟨hnone, ?_, ?_⟩
    · rw [DecryptBlock_scratch, hf scratch]
      rfl
    · rw [(EncryptBlock_data_scratch _ _ i data scratch).2, hf scratch]

end Bijou

/-- Witness for C9: file `s` renamed to `d`, neither having a
sidecar; block 5 of the stream then opened on `d`. -/
theorem rename_without_sidecar_witness :
    ((⟨defaultRenameFile⟩ : Bijou.CustomFileSystem).RenameFile (mkFS [("s", [1])] 100) "s" "d").1
      = IOStatus.OK ∧
    ((⟨defaultRenameFile⟩ : Bijou.CustomFileSystem).RenameFile
      (mkFS [("s", [1])] 100) "s" "d").2.files ("d" ++ ".meta") = none ∧
    ((Bijou.CustomCipherStream.new ((⟨defaultRenameFile⟩ : Bijou.CustomFileSystem).RenameFile
        (mkFS [("s", [1])] 100) "s" "d").2 "d" (sampleCipher 2)).1.DecryptBlock
      (Bijou.CustomCipherStream.new ((⟨defaultRenameFile⟩ : Bijou.CustomFileSystem).RenameFile
        (mkFS [("s", [1])] 100) "s" "d").2 "d" (sampleCipher 2)).2 5 [1, 2, 3, 4] [0, 0]).scratch
      = [0, 0] := by
  have h := Bijou.rename_without_sidecar ⟨defaultRenameFile⟩ (mkFS [("s", [1])] 100) "s" "d"
    (sampleCipher 2) 5 [1, 2, 3, 4] [0, 0] _ _ rfl (by decide)
  have h3 := h.2.2 (by decide)
  exact ⟨by rw [h.1]; decide, h3.1, h3.2.1⟩

/-- C9 as stated fails. File `s` has no sidecar and `d.meta` holds the record `[9]`.
`RenameFile(s, d)` succeeds, `d` now holds the content of `s`, and `d.meta` still holds
`[9]`: the stream opened on `d` hands `[9]` to the decrypt callback for block 0. -/
theorem rename_keeps_stale_sidecar :
    ((⟨defaultRenameFile⟩ : Bijou.CustomFileSystem).RenameFile
      (mkFS [("s", [1]), ("d.meta", [9])] 100) "s" "d").1 = IOStatus.OK ∧
    ((⟨defaultRenameFile⟩ : Bijou.CustomFileSystem).RenameFile
      (mkFS [("s", [1]), ("d.meta", [9])] 100) "s" "d").2.files "d" = some [1] ∧
    ((⟨defaultRenameFile⟩ : Bijou.CustomFileSystem).RenameFile
      (mkFS [("s", [1]), ("d.meta", [9])] 100) "s" "d").2.files ("d" ++ ".meta") = some [9] ∧
    ((Bijou.CustomCipherStream.new ((⟨defaultRenameFile⟩ : Bijou.CustomFileSystem).RenameFile
        (mkFS [("s", [1]), ("d.meta", [9])] 100) "s" "d").2 "d" (sampleCipher 1)).1.DecryptBlock
      (Bijou.CustomCipherStream.new ((⟨defaultRenameFile⟩ : Bijou.CustomFileSystem).RenameFile
        (mkFS [("s", [1]), ("d.meta", [9])] 100) "s" "d").2 "d" (sampleCipher 1)).2 0 [1, 2, 3, 4] [0]).scratch
      = [9] := by
  refine ⟨?_, ?_, ?_, ?_⟩ <;> decide

/-! ## C10: record isolation -/

namespace Bijou

variable {U D : Type}

end Bijou

